import Mathlib

/-!
Verification of `qiskit_metal/qlibrary/qubits/transmon_pocket_6_rounded.py`.

The component is a deterministic geometry builder.  We embed it shallowly:

* Coordinates are rationals (`ℚ`); the Python code works with floats but all
  arithmetic performed here is exact (`+`, `-`, `*`, `/ 2`, `min`), so ℚ is a
  faithful model of the computed values.
* Calls into the external geometry library (shapely `box`/`buffer`, the
  framework's `draw.translate` / `draw.rotate` / `draw.scale` /
  `draw.rotate_position`) are embedded symbolically as constructors of a
  `Geom` type: the source treats them as black boxes, and the structural
  claims are about which operations are applied with which arguments.
* For the numerical claim about the rounded output we additionally give the
  buffer operations their standard point-set semantics over `ℝ`
  (mitred erosion of an axis-aligned box shrinks it by the distance; rounded
  dilation is Minkowski sum with a closed disk).
-/

/-- Symbolic planar geometry values, one constructor per primitive operation
the source invokes on the external geometry library.
`bufferMitre g d` is `g.buffer(d, join_style=2)`,
`bufferRound g d` is `g.buffer(d, join_style=1)`,
`rotatePos g a px py` is `draw.rotate_position(g, a, [px, py])`. -/
inductive Geom : Type
  | box (xmin ymin xmax ymax : ℚ)
  | lineString (pts : List (ℚ × ℚ))
  | bufferMitre (g : Geom) (d : ℚ)
  | bufferRound (g : Geom) (d : ℚ)
  | translate (g : Geom) (dx dy : ℚ)
  | rotate (g : Geom) (angle ox oy : ℚ)
  | scale (g : Geom) (sx sy ox oy : ℚ)
  | rotatePos (g : Geom) (angle px py : ℚ)
  deriving DecidableEq, Repr

/-- `_rounded_rectangle(width, height, xoff, yoff, radius)` from the source:
if `radius <= 0`, the sharp box with `xmin = xoff`, `xmax = xoff + width`,
`ymax = yoff`, `ymin = yoff - height`; otherwise the radius is clamped to
`min(radius, 0.5 * min(width, height))` and the box is eroded with a mitre
join then dilated with a round join by the clamped radius. -/
def _rounded_rectangle (width height : ℚ) (xoff yoff : ℚ) (radius : ℚ) : Geom :=
  if radius ≤ 0 then
    Geom.box xoff (yoff - height) (xoff + width) yoff
  else
    let r := min radius (1/2 * min width height)
    Geom.bufferRound (Geom.bufferMitre (Geom.box xoff (yoff - height) (xoff + width) yoff) (-r)) r

/-- Modelled from the spec: the host framework's `draw.rectangle(w, h, xoff, yoff)`
baseline rectangle, which the source's `radius <= 0` branch states it is
equivalent to ("Equivalent to draw.rectangle(w, h, xoff, yoff)"): the
axis-aligned box anchored at the offset, extending by `width` rightward and
`height` downward. -/
def draw_rectangle (width height : ℚ) (xoff yoff : ℚ) : Geom :=
  Geom.box xoff (yoff - height) (xoff + width) yoff

/-- Exterior corner vertices of a sharp box, in shapely's counter-clockwise
order starting from the lower-right vertex; `[]` on non-box geometry. -/
def boxCorners : Geom → List (ℚ × ℚ)
  | Geom.box xmin ymin xmax ymax => [(xmax, ymin), (xmax, ymax), (xmin, ymax), (xmin, ymin)]
  | _ => []

/-- Component-level options of `TransmonPocket6Rounded`, already parsed to
numbers (the framework's `self.p`).  The three per-class radius overrides are
`None`-able in the source, hence `Option ℚ` here. -/
structure ComponentParams : Type where
  pad_gap : ℚ
  inductor_width : ℚ
  pad_width : ℚ
  pad_height : ℚ
  pocket_width : ℚ
  pocket_height : ℚ
  corner_radius : ℚ
  pad_corner_radius : Option ℚ
  pocket_corner_radius : Option ℚ
  connector_corner_radius : Option ℚ
  pos_x : ℚ
  pos_y : ℚ
  orientation : ℚ
  deriving DecidableEq, Repr

/-- Per-connector options (`self.p.connection_pads[name]`), parsed. -/
structure ConnectorParams : Type where
  pad_gap : ℚ
  pad_width : ℚ
  pad_height : ℚ
  pad_cpw_shift : ℚ
  pad_cpw_extent : ℚ
  cpw_width : ℚ
  cpw_gap : ℚ
  cpw_extend : ℚ
  pocket_extent : ℚ
  pocket_rise : ℚ
  loc_W : ℚ
  loc_H : ℚ
  deriving DecidableEq, Repr

/-- `_get_radii` from the source: each effective radius is the per-class
override when present, otherwise the global `corner_radius`; returned as
`(pad_r, pk_r, cn_r)`. -/
def _get_radii (p : ComponentParams) : ℚ × ℚ × ℚ :=
  let base := p.corner_radius
  let pad_r := match p.pad_corner_radius with
    | none => base
    | some v => v
  let pk_r := match p.pocket_corner_radius with
    | none => base
    | some v => v
  let cn_r := match p.connector_corner_radius with
    | none => base
    | some v => v
  (pad_r, pk_r, cn_r)

/-- Claim C1: with radius 0 the builder returns the sharp rectangle, equal to the
un-rounded baseline, and its corners are exactly the four claimed points. -/
theorem rounded_rectangle_radius_zero (w h xo yo : ℚ) (hw : 0 < w) (hh : 0 < h) :
    _rounded_rectangle w h xo yo 0 = draw_rectangle w h xo yo ∧
    (boxCorners (_rounded_rectangle w h xo yo 0)).Perm
      [(xo, yo - h), (xo + w, yo - h), (xo + w, yo), (xo, yo)] := by
  constructor
  · simp [_rounded_rectangle, draw_rectangle]
  · have hb : _rounded_rectangle w h xo yo 0 = Geom.box xo (yo - h) (xo + w) yo := by
      simp [_rounded_rectangle]
    rw [hb]
    show List.Perm ([(xo + w, yo - h), (xo + w, yo), (xo, yo)] ++ [(xo, yo - h)])
      ([(xo, yo - h)] ++ [(xo + w, yo - h), (xo + w, yo), (xo, yo)])
    exact List.perm_append_comm

/-- Claim C1 witness at `w = 2, h = 1, xo = 3, yo = 5`. -/
theorem rounded_rectangle_radius_zero_witness :
    _rounded_rectangle 2 1 3 5 0 = draw_rectangle 2 1 3 5 ∧
    (boxCorners (_rounded_rectangle 2 1 3 5 0)).Perm
      [(3, 5 - 1), (3 + 2, 5 - 1), (3 + 2, 5), (3, 5)] :=
  rounded_rectangle_radius_zero 2 1 3 5 (by norm_num) (by norm_num)

/-- Claim C3: for positive sides, requesting any radius larger than half the shorter
side produces exactly the same output as requesting half the shorter side. -/
theorem rounded_rectangle_radius_clamped (w h xo yo r : ℚ) (hw : 0 < w) (hh : 0 < h)
    (hr : min w h / 2 < r) :
    _rounded_rectangle w h xo yo r = _rounded_rectangle w h xo yo (min w h / 2) := by
  have hmin : 0 < min w h := lt_min hw hh
  have hhalf : 0 < min w h / 2 := by positivity
  have hrpos : 0 < r := lt_trans hhalf hr
  have e1 : min r (1/2 * min w h) = min w h / 2 := by
    rw [min_eq_right]
    · ring
    · nlinarith
  have e2 : min (min w h / 2) (1/2 * min w h) = min w h / 2 := by
    rw [min_eq_left]
    nlinarith
  unfold _rounded_rectangle
  rw [if_neg (by linarith), if_neg (by linarith), e1, e2]

/-- Claim C3 witness at `w = 2, h = 4, r = 5` (half the shorter side is `1`). -/
theorem rounded_rectangle_radius_clamped_witness :
    _rounded_rectangle 2 4 0 0 5 = _rounded_rectangle 2 4 0 0 (min 2 4 / 2) :=
  rounded_rectangle_radius_clamped 2 4 0 0 5 (by norm_num) (by norm_num) (by norm_num)

/-- Claim C5: each effective radius equals its per-class override when that override
is given and the global `corner_radius` otherwise, and changing one override
leaves the other two effective radii unchanged. -/
theorem get_radii_resolution (p : ComponentParams) :
    ((_get_radii p).1 = match p.pad_corner_radius with
      | none => p.corner_radius
      | some v => v) ∧
    ((_get_radii p).2.1 = match p.pocket_corner_radius with
      | none => p.corner_radius
      | some v => v) ∧
    ((_get_radii p).2.2 = match p.connector_corner_radius with
      | none => p.corner_radius
      | some v => v) ∧
    (∀ v, (_get_radii { p with pad_corner_radius := v }).2.1 = (_get_radii p).2.1 ∧
          (_get_radii { p with pad_corner_radius := v }).2.2 = (_get_radii p).2.2) ∧
    (∀ v, (_get_radii { p with pocket_corner_radius := v }).1 = (_get_radii p).1 ∧
          (_get_radii { p with pocket_corner_radius := v }).2.2 = (_get_radii p).2.2) ∧
    (∀ v, (_get_radii { p with connector_corner_radius := v }).1 = (_get_radii p).1 ∧
          (_get_radii { p with connector_corner_radius := v }).2.1 = (_get_radii p).2.1) := by
  refine ⟨rfl, rfl, rfl, fun v => ⟨rfl, rfl⟩, fun v => ⟨rfl, rfl⟩, fun v => ⟨rfl, rfl⟩⟩

/-- Claim C6: for positive sides and positive radius the builder returns exactly the
mitre-join erosion of the sharp box by the clamped radius followed by the
round-join dilation by the same clamped radius, unmodified. -/
theorem rounded_rectangle_erode_dilate (w h xo yo r : ℚ) (hw : 0 < w) (hh : 0 < h)
    (hr : 0 < r) :
    _rounded_rectangle w h xo yo r =
      Geom.bufferRound
        (Geom.bufferMitre (Geom.box xo (yo - h) (xo + w) yo)
          (-(min r (1/2 * min w h))))
        (min r (1/2 * min w h)) := by
  unfold _rounded_rectangle
  rw [if_neg (by linarith)]

/-- Claim C6 witness at `w = 2, h = 2, r = 3` (clamped radius `1`). -/
theorem rounded_rectangle_erode_dilate_witness :
    _rounded_rectangle 2 2 0 0 3 =
      Geom.bufferRound
        (Geom.bufferMitre (Geom.box 0 (0 - 2) (0 + 2) 0) (-(min 3 (1/2 * min 2 2))))
        (min 3 (1/2 * min 2 2)) :=
  rounded_rectangle_erode_dilate 2 2 0 0 3 (by norm_num) (by norm_num) (by norm_num)

/-- One call to the framework's `add_qgeometry`: the table kind
(`"poly"`, `"path"` or `"junction"`), the entry name, its geometry, the
optional trace width and the subtract flag. -/
structure QGeometryEntry : Type where
  kind : String
  name : String
  geom : Geom
  width : Option ℚ
  subtract : Bool
  deriving DecidableEq, Repr

/-- The island pad of `make_pocket` before the vertical offsets and the
component-level transform: a centered rounded rectangle of the component's
pad size, rounded with the effective pad radius. -/
def pocket_pad (p : ComponentParams) : Geom :=
  _rounded_rectangle p.pad_width p.pad_height (-(p.pad_width / 2)) (p.pad_height / 2)
    (_get_radii p).1

/-- `pad_top` of `make_pocket` before rotation/translation. -/
def pocket_pad_top (p : ComponentParams) : Geom :=
  Geom.translate (pocket_pad p) 0 ((p.pad_height + p.pad_gap) / 2)

/-- `pad_bot` of `make_pocket` before rotation/translation. -/
def pocket_pad_bot (p : ComponentParams) : Geom :=
  Geom.translate (pocket_pad p) 0 (-((p.pad_height + p.pad_gap) / 2))

/-- The component-level transform applied to all pocket shapes together:
rotation about the origin by `orientation`, then translation to
`(pos_x, pos_y)`. -/
def pocket_transform (p : ComponentParams) (g : Geom) : Geom :=
  Geom.translate (Geom.rotate g p.orientation 0 0) p.pos_x p.pos_y

/-- `make_pocket` from the source: the geometry entries it registers, in call
order (`pad_top` and `pad_bot` as polygons, `rect_pk` as a subtractive
polygon, `rect_jj` as a junction with the inductor width). -/
def make_pocket (p : ComponentParams) : List QGeometryEntry :=
  let rect_jj := Geom.lineString [(0, -(p.pad_gap / 2)), (0, p.pad_gap / 2)]
  let rect_pk := _rounded_rectangle p.pocket_width p.pocket_height
    (-(p.pocket_width / 2)) (p.pocket_height / 2) (_get_radii p).2.1
  [ QGeometryEntry.mk "poly" "pad_top" (pocket_transform p (pocket_pad_top p)) none false,
    QGeometryEntry.mk "poly" "pad_bot" (pocket_transform p (pocket_pad_bot p)) none false,
    QGeometryEntry.mk "poly" "rect_pk" (pocket_transform p rect_pk) none true,
    QGeometryEntry.mk "junction" "rect_jj" (pocket_transform p rect_jj)
      (some p.inductor_width) false ]

/-- Claim C7: before the component-level rotation and translation, the top and
bottom island pads are translates of one and the same rounded pad rectangle,
by `+(pad_height + pad_gap)/2` and `-(pad_height + pad_gap)/2` vertically. -/
theorem pocket_pads_same_translated (p : ComponentParams) :
    ∃ pad : Geom,
      pocket_pad_top p = Geom.translate pad 0 ((p.pad_height + p.pad_gap) / 2) ∧
      pocket_pad_bot p = Geom.translate pad 0 (-((p.pad_height + p.pad_gap) / 2)) :=
  ⟨pocket_pad p, rfl, rfl⟩

/-- The connector pad of `make_connection_pad` before any transform:
`loc_W != 0` uses `xoff = -pad_width/2` (stock
`draw.rectangle(pad_width, pad_height, -pad_width/2, pad_height/2)`), and
`loc_W = 0` uses `xoff = 0` (stock
`draw.rectangle(pad_width, pad_height, 0, pad_height/2)`). -/
def connector_pad_raw (pc : ConnectorParams) (cn_r : ℚ) : Geom :=
  if pc.loc_W ≠ 0 then
    _rounded_rectangle pc.pad_width pc.pad_height (-(pc.pad_width / 2)) (pc.pad_height / 2) cn_r
  else
    _rounded_rectangle pc.pad_width pc.pad_height 0 (pc.pad_height / 2) cn_r

/-- The connector wire path of `make_connection_pad` before any transform:
a four-point polyline when `loc_W != 0`, a two-point vertical segment when
`loc_W = 0`. -/
def connector_wire_raw (p : ComponentParams) (pc : ConnectorParams) : Geom :=
  if pc.loc_W ≠ 0 then
    Geom.lineString
      [ (0, pc.pad_cpw_shift + pc.cpw_width / 2),
        (pc.pad_cpw_extent, pc.pad_cpw_shift + pc.cpw_width / 2),
        ((p.pocket_width - p.pad_width) / 2 - pc.pocket_extent,
          pc.pad_cpw_shift + pc.cpw_width / 2 + pc.pocket_rise),
        ((p.pocket_width - p.pad_width) / 2 + pc.cpw_extend,
          pc.pad_cpw_shift + pc.cpw_width / 2 + pc.pocket_rise) ]
  else
    Geom.lineString
      [ (0, pc.pad_height),
        (0, (p.pocket_width / 2 - p.pad_height - p.pad_gap / 2 - pc.pad_gap) + pc.cpw_extend) ]

/-- The per-connector transform of `make_connection_pad`: mirror scale by
`(loc_Woff, loc_H)` about the origin (with `loc_W = 0` treated as scale
factor `1`), translate by
`(loc_W * pad_width / 2, loc_H * (pad_height + pad_gap/2 + connector pad_gap))`,
then `draw.rotate_position` into global coordinates. -/
def connector_transform (p : ComponentParams) (pc : ConnectorParams) (g : Geom) : Geom :=
  let loc_Woff : ℚ := if pc.loc_W = 0 then 1 else pc.loc_W
  Geom.rotatePos
    (Geom.translate (Geom.scale g loc_Woff pc.loc_H 0 0)
      (pc.loc_W * p.pad_width / 2)
      (pc.loc_H * (p.pad_height + p.pad_gap / 2 + pc.pad_gap)))
    p.orientation p.pos_x p.pos_y

/-- The `add_qgeometry` calls of `make_connection_pad`, in call order. -/
def connection_pad_entries (p : ComponentParams) (pc : ConnectorParams) (name : String) :
    List QGeometryEntry :=
  let cn_r := (_get_radii p).2.2
  let connector_pad := connector_transform p pc (connector_pad_raw pc cn_r)
  let connector_wire_path := connector_transform p pc (connector_wire_raw p pc)
  [ QGeometryEntry.mk "poly" (name ++ "_connector_pad") connector_pad none false,
    QGeometryEntry.mk "path" (name ++ "_wire") connector_wire_path (some pc.cpw_width) false,
    QGeometryEntry.mk "path" (name ++ "_wire_sub") connector_wire_path
      (some (pc.cpw_width + 2 * pc.cpw_gap)) true ]

/-- The validation message `make_connection_pad` logs (via `logger.info`)
when a placement flag is out of range; the build then continues unchanged. -/
def flag_warning_text : String :=
  "Warning: loc_W should be -1, 0, +1 and loc_H should be -1, +1."

/-- The warnings `make_connection_pad` logs: one message exactly when
`loc_W not in [-1, +1, 0] or loc_H not in [-1, +1]`. -/
def flag_warnings (pc : ConnectorParams) : List String :=
  if pc.loc_W ∉ ([-1, 1, 0] : List ℚ) ∨ pc.loc_H ∉ ([-1, 1] : List ℚ) then
    [flag_warning_text]
  else []

/-- Result of one `make_connection_pad` call: the logged warnings and the
registered geometry entries.  The function is total: the source raises no
exception on any input. -/
structure ConnectionPadResult : Type where
  warnings : List String
  entries : List QGeometryEntry
  deriving DecidableEq, Repr

/-- `make_connection_pad` from the source: validate the placement flags
non-fatally, then build and register the connector geometry using the
parameter values as given. -/
def make_connection_pad (p : ComponentParams) (pc : ConnectorParams) (name : String) :
    ConnectionPadResult :=
  ConnectionPadResult.mk (flag_warnings pc) (connection_pad_entries p pc name)

/-- The sharp rectangle a rounded shape was built from: strips the
erode/dilate buffer pair that `_rounded_rectangle` applies, and is the
identity on geometry that was not buffered (the `radius <= 0` branch). -/
def baseRect : Geom → Geom
  | Geom.bufferRound (Geom.bufferMitre g _) _ => g
  | g => g

/-- The component's `default_options` values, in micrometres. -/
def defaultComponentParams : ComponentParams :=
  ComponentParams.mk 30 20 455 90 650 650 0 none none none 0 0 0

/-- The component's `_default_connection_pads` values, in micrometres. -/
def defaultConnectorParams : ConnectorParams :=
  ConnectorParams.mk 15 125 30 0 25 10 6 100 5 0 1 1

/-- Claim C2 counterexample: with `loc_W = 0`, `pad_width = 2`, `pad_height = 1`
and radius `0`, the pre-transform connector pad is the box spanning
`x` from `0` to `2`, not the symmetric box spanning `x` from `-1` to `1`
that the claim asserts for `loc_W = 0`. -/
theorem connector_pad_anchoring_counterexample :
    connector_pad_raw (ConnectorParams.mk 15 2 1 0 25 10 6 100 5 0 0 1) 0 =
      Geom.box 0 (-(1/2)) 2 (1/2) ∧
    Geom.box 0 (-(1/2)) 2 (1/2) ≠ Geom.box (-1) (-(1/2)) 1 (1/2) := by
  constructor
  · show (if (0:ℚ) ≠ 0 then _ else _) = _
    rw [if_neg (by norm_num)]
    show (if (0:ℚ) ≤ 0 then _ else _) = _
    rw [if_pos le_rfl]
    norm_num
  · intro hcontr
    have := (Geom.box.injEq _ _ _ _ _ _ _ _).mp hcontr
    norm_num at this

/-- Claim C2 amended: the pre-transform connector pad rectangle is anchored
symmetric about the local y-axis (`x` from `-pad_width/2` to `+pad_width/2`)
when `loc_W` is nonzero, and offset to one side of the y-axis (`x` from `0`
to `pad_width`) when `loc_W = 0`. -/
theorem connector_pad_anchoring (pc : ConnectorParams) (cn_r : ℚ) :
    baseRect (connector_pad_raw pc cn_r) =
      (if pc.loc_W ≠ 0 then
        Geom.box (-(pc.pad_width / 2)) (pc.pad_height / 2 - pc.pad_height)
          (pc.pad_width / 2) (pc.pad_height / 2)
      else
        Geom.box 0 (pc.pad_height / 2 - pc.pad_height) pc.pad_width (pc.pad_height / 2)) := by
  have hx : ∀ xo : ℚ,
      baseRect (_rounded_rectangle pc.pad_width pc.pad_height xo (pc.pad_height / 2) cn_r) =
        Geom.box xo (pc.pad_height / 2 - pc.pad_height) (xo + pc.pad_width)
          (pc.pad_height / 2) := by
    intro xo
    unfold _rounded_rectangle
    by_cases hr : cn_r ≤ 0
    · rw [if_pos hr]; rfl
    · rw [if_neg hr]; rfl
  unfold connector_pad_raw
  by_cases hW : pc.loc_W ≠ 0
  · rw [if_pos hW, if_pos hW, hx, Geom.box.injEq]
    exact ⟨rfl, rfl, by ring, rfl⟩
  · rw [if_neg hW, if_neg hW, hx, Geom.box.injEq]
    exact ⟨rfl, rfl, by ring, rfl⟩

/-- Claim C4: out-of-range placement flags produce exactly one logged warning, no
exception (the embedding is a total function), and the geometry is still
built, with the out-of-range `loc_W`/`loc_H` values used as-is in the mirror
scale and the placement translation. -/
theorem connection_pad_invalid_flags_warn_and_continue (p : ComponentParams)
    (pc : ConnectorParams) (name : String)
    (h : pc.loc_W ∉ ([-1, 1, 0] : List ℚ) ∨ pc.loc_H ∉ ([-1, 1] : List ℚ)) :
    (make_connection_pad p pc name).warnings = [flag_warning_text] ∧
    (make_connection_pad p pc name).entries = connection_pad_entries p pc name ∧
    (make_connection_pad p pc name).entries.head? =
      some (QGeometryEntry.mk "poly" (name ++ "_connector_pad")
        (Geom.rotatePos
          (Geom.translate
            (Geom.scale (connector_pad_raw pc (_get_radii p).2.2)
              (if pc.loc_W = 0 then 1 else pc.loc_W) pc.loc_H 0 0)
            (pc.loc_W * p.pad_width / 2)
            (pc.loc_H * (p.pad_height + p.pad_gap / 2 + pc.pad_gap)))
          p.orientation p.pos_x p.pos_y) none false) := by
  refine ⟨?_, rfl, rfl⟩
  show (if _ then _ else _) = _
  rw [if_pos h]

/-- Claim C4 witness: `loc_W = 2` (defaults otherwise) logs the warning. -/
theorem connection_pad_invalid_flags_witness :
    (make_connection_pad defaultComponentParams
      (ConnectorParams.mk 15 125 30 0 25 10 6 100 5 0 2 1) "a").warnings =
      [flag_warning_text] :=
  (connection_pad_invalid_flags_warn_and_continue defaultComponentParams
    (ConnectorParams.mk 15 125 30 0 25 10 6 100 5 0 2 1) "a" (by decide)).1

/-- Claim C8: every connector registers its pad as a polygon, its wire as a path of
width `cpw_width`, and the very same wire geometry again as a subtractive
path of width `cpw_width + 2 * cpw_gap`. -/
theorem connection_pad_registration (p : ComponentParams) (pc : ConnectorParams)
    (name : String) :
    ∃ pad wire : Geom,
      (make_connection_pad p pc name).entries =
        [ QGeometryEntry.mk "poly" (name ++ "_connector_pad") pad none false,
          QGeometryEntry.mk "path" (name ++ "_wire") wire (some pc.cpw_width) false,
          QGeometryEntry.mk "path" (name ++ "_wire_sub") wire
            (some (pc.cpw_width + 2 * pc.cpw_gap)) true ] :=
  ⟨_, _, rfl⟩

/-- Claim C10: with `loc_W = 0` the pre-transform wire is exactly the two-point
vertical segment from `(0, connector pad_height)` to
`(0, pocket_width/2 - pad_height - pad_gap/2 - connector pad_gap + cpw_extend)`;
its terminal ordinate is computed from `pocket_width`. -/
theorem connector_wire_locW_zero (p : ComponentParams) (pc : ConnectorParams)
    (h : pc.loc_W = 0) :
    connector_wire_raw p pc =
      Geom.lineString
        [ (0, pc.pad_height),
          (0, p.pocket_width / 2 - p.pad_height - p.pad_gap / 2 - pc.pad_gap
              + pc.cpw_extend) ] := by
  simp [connector_wire_raw, h]

/-- Claim C10 witness at the default dimensions with `loc_W = 0`: the wire runs
from `(0, 30)` to `(0, 305)` (both in micrometres). -/
theorem connector_wire_locW_zero_witness :
    connector_wire_raw defaultComponentParams
      (ConnectorParams.mk 15 125 30 0 25 10 6 100 5 0 0 1) =
      Geom.lineString [(0, 30), (0, 305)] := by
  have h := connector_wire_locW_zero defaultComponentParams
    (ConnectorParams.mk 15 125 30 0 25 10 6 100 5 0 0 1) rfl
  rw [h]
  norm_num [defaultComponentParams]

/-! ### Point-set semantics of the rounded branch

For the numerical claim we interpret the two buffer calls the source applies
to the sharp box with their standard planar meaning: a negative mitre-join
buffer of an axis-aligned box shrinks it by the distance on every side, and a
positive round-join buffer is Minkowski dilation by the closed disk of that
radius. -/

/-- Point set of the axis-aligned box `[xmin, xmax] x [ymin, ymax]`. -/
def boxSet (xmin ymin xmax ymax : ℝ) : Set (ℝ × ℝ) :=
  {q | xmin ≤ q.1 ∧ q.1 ≤ xmax ∧ ymin ≤ q.2 ∧ q.2 ≤ ymax}

/-- Round-join dilation (`buffer(r, join_style=1)`): Minkowski sum with the
closed disk of radius `r`, membership expressed with squared distances. -/
def dilateRound (S : Set (ℝ × ℝ)) (r : ℝ) : Set (ℝ × ℝ) :=
  {q | ∃ c ∈ S, (q.1 - c.1) ^ 2 + (q.2 - c.2) ^ 2 ≤ r ^ 2}

/-- Point-set semantics of `_rounded_rectangle`: the sharp box when
`radius <= 0`; otherwise the mitre-join erosion of the box by the clamped
radius (the box shrunk by it on every side) dilated back with a round join. -/
def rounded_rectangle_set (w h xo yo r : ℝ) : Set (ℝ × ℝ) :=
  if r ≤ 0 then boxSet xo (yo - h) (xo + w) yo
  else
    dilateRound
      (boxSet (xo + min r (1/2 * min w h)) (yo - h + min r (1/2 * min w h))
        (xo + w - min r (1/2 * min w h)) (yo - min r (1/2 * min w h)))
      (min r (1/2 * min w h))

/-- Claim C9: for `0 < r <= min(w, h)/2` the rounded output stays inside the sharp
rectangle, touches all four of its sides (so the bounding boxes agree
exactly), and excludes all four corner points of the sharp rectangle
(rounding removed area at every corner). -/
theorem rounded_rectangle_bbox_and_corners (w h xo yo r : ℝ)
    (hw : 0 < w) (hh : 0 < h) (hr : 0 < r) (hrle : r ≤ min w h / 2) :
    rounded_rectangle_set w h xo yo r ⊆ boxSet xo (yo - h) (xo + w) yo ∧
    ((xo, yo - h / 2) ∈ rounded_rectangle_set w h xo yo r ∧
      (xo + w, yo - h / 2) ∈ rounded_rectangle_set w h xo yo r ∧
      (xo + w / 2, yo) ∈ rounded_rectangle_set w h xo yo r ∧
      (xo + w / 2, yo - h) ∈ rounded_rectangle_set w h xo yo r) ∧
    ((xo, yo) ∉ rounded_rectangle_set w h xo yo r ∧
      (xo + w, yo) ∉ rounded_rectangle_set w h xo yo r ∧
      (xo, yo - h) ∉ rounded_rectangle_set w h xo yo r ∧
      (xo + w, yo - h) ∉ rounded_rectangle_set w h xo yo r) := by
  have hwr : 2 * r ≤ w := by
    have := min_le_left w h
    linarith
  have hhr : 2 * r ≤ h := by
    have := min_le_right w h
    linarith
  have hclamp : min r (1/2 * min w h) = r := by
    apply min_eq_left
    linarith
  have hset : rounded_rectangle_set w h xo yo r =
      dilateRound (boxSet (xo + r) (yo - h + r) (xo + w - r) (yo - r)) r := by
    unfold rounded_rectangle_set
    rw [if_neg (by linarith), hclamp]
  refine ⟨?_, ⟨?_, ?_, ?_, ?_⟩, ⟨?_, ?_, ?_, ?_⟩⟩
  · rw [hset]
    rintro q ⟨c, hc, hd⟩
    obtain ⟨h1, h2, h3, h4⟩ := hc
    have hx2 : (q.1 - c.1) ^ 2 ≤ r ^ 2 := by nlinarith [sq_nonneg (q.2 - c.2)]
    have hy2 : (q.2 - c.2) ^ 2 ≤ r ^ 2 := by nlinarith [sq_nonneg (q.1 - c.1)]
    have hx := abs_le_of_sq_le_sq' hx2 (le_of_lt hr)
    have hy := abs_le_of_sq_le_sq' hy2 (le_of_lt hr)
    exact ⟨by linarith [hx.1], by linarith [hx.2], by linarith [hy.1], by linarith [hy.2]⟩
  · rw [hset]
    refine ⟨(xo + r, yo - h / 2), ⟨le_rfl, by linarith, by linarith, by linarith⟩, ?_⟩
    dsimp only
    exact le_of_eq (by ring)
  · rw [hset]
    refine ⟨(xo + w - r, yo - h / 2), ⟨by linarith, le_rfl, by linarith, by linarith⟩, ?_⟩
    dsimp only
    exact le_of_eq (by ring)
  · rw [hset]
    refine ⟨(xo + w / 2, yo - r), ⟨by linarith, by linarith, by linarith, le_rfl⟩, ?_⟩
    dsimp only
    exact le_of_eq (by ring)
  · rw [hset]
    refine ⟨(xo + w / 2, yo - h + r), ⟨by linarith, by linarith, le_rfl, by linarith⟩, ?_⟩
    dsimp only
    exact le_of_eq (by ring)
  · rw [hset]
    rintro ⟨⟨cx, cy⟩, ⟨h1, h2, h3, h4⟩, hd⟩
    dsimp only at h1 h2 h3 h4 hd
    nlinarith [sq_nonneg (cx - xo - r), sq_nonneg (yo - cy - r)]
  · rw [hset]
    rintro ⟨⟨cx, cy⟩, ⟨h1, h2, h3, h4⟩, hd⟩
    dsimp only at h1 h2 h3 h4 hd
    nlinarith [sq_nonneg (xo + w - cx - r), sq_nonneg (yo - cy - r)]
  · rw [hset]
    rintro ⟨⟨cx, cy⟩, ⟨h1, h2, h3, h4⟩, hd⟩
    dsimp only at h1 h2 h3 h4 hd
    nlinarith [sq_nonneg (cx - xo - r), sq_nonneg (cy - (yo - h) - r)]
  · rw [hset]
    rintro ⟨⟨cx, cy⟩, ⟨h1, h2, h3, h4⟩, hd⟩
    dsimp only at h1 h2 h3 h4 hd
    nlinarith [sq_nonneg (xo + w - cx - r), sq_nonneg (cy - (yo - h) - r)]

/-- Claim C9 witness at `w = h = 2, xo = yo = 0, r = 1`. -/
theorem rounded_rectangle_bbox_and_corners_witness :
    (0:ℝ) < 2 ∧ (0:ℝ) < 1 ∧ (1:ℝ) ≤ min 2 2 / 2 ∧
    ((0:ℝ), (0:ℝ)) ∉ rounded_rectangle_set 2 2 0 0 1 :=
  ⟨by norm_num, by norm_num, by norm_num,
    (rounded_rectangle_bbox_and_corners 2 2 0 0 1 (by norm_num) (by norm_num)
      (by norm_num) (by norm_num)).2.2.1⟩
